import Mathlib

/-
Verification of the `with-refresh-token` middleware package (src/index.ts).

The development shallowly embeds the two functions of the package —
`applyCookiesOnNextResponse` (the cookie propagator) and the request handler
produced by `getMiddleware` (the middleware composer) — together with the
small slice of the host framework they rely on: header maps, the
request/response cookie views of `@edge-runtime/cookies`, and
`NextResponse.next`.

Conventions of the embedding:
- Header maps are association lists of (name, value) pairs.  The framework
  canonicalises header names to lower case; every name appearing in this
  development is already a lower-case literal, so the embedding compares
  names as exact strings.
- String parsing is carried out on the underlying character lists so that
  every definition evaluates by kernel reduction on concrete inputs.
- A rejected promise or a thrown exception is an `Except.error`; an
  exception that the composer does not catch surfaces as the `Except.error`
  result of the whole run.
- The composer records an event trace of the callback invocations and
  pipeline stages it performs, and tags its returned response with its
  provenance, which models the object identity of the returned value.
-/

set_option autoImplicit false

/-- Splits a character list on every occurrence of the character `sep`. -/
def splitChar (sep : Char) : List Char → List (List Char)
  | [] => [[]]
  | c :: cs =>
    let r := splitChar sep cs
    if c = sep then [] :: r
    else (c :: r.headD []) :: r.tail

/-- Drops leading spaces, as the framework's cookie parser does after each
separator. -/
def dropSpaces (cs : List Char) : List Char :=
  cs.dropWhile (fun c => c = ' ')

/-- Joins character lists with the separator `sep` between them. -/
def joinSep (sep : List Char) : List (List Char) → List Char
  | [] => []
  | [x] => x
  | x :: xs => x ++ sep ++ joinSep sep xs

/-- Breaks a character list at the first `=` sign, returning the parts
before and after it, or `none` when no `=` occurs. -/
def breakAtEq : List Char → Option (List Char × List Char)
  | [] => none
  | c :: cs =>
    if c = '=' then some ([], cs)
    else
      match breakAtEq cs with
      | none => none
      | some (n, v) => some (c :: n, v)

/-- Tests whether the string `p` is a prefix of the string `s`, the
embedding of `String.startsWith` of the source. -/
def startsWithStr (s p : String) : Bool :=
  p.data.isPrefixOf s.data

/-- A cookie as the `@edge-runtime/cookies` views expose it: only the name
and the value matter to this package. -/
structure Cookie where
  name : String
  value : String
  deriving DecidableEq, Repr

/-- Parses one `name=value` fragment of a cookie header.  A fragment with
no `=` parses, as in the framework, to the bare name with value `"true"`. -/
def parseCookiePair (cs : List Char) : Cookie :=
  match breakAtEq cs with
  | none => ⟨String.mk cs, "true"⟩
  | some (n, v) => ⟨String.mk n, String.mk v⟩

/-- Parses a `cookie` request header: split on `;`, drop the spaces after
each separator, skip empty fragments, parse each fragment. -/
def parseCookieHeader (s : String) : List Cookie :=
  (((splitChar ';' s.data).map dropSpaces).filter (fun l => !l.isEmpty)).map parseCookiePair

/-- Serialises request cookies back into a `cookie` header value, joining
`name=value` pairs with `"; "`. -/
def serializeCookies (cs : List Cookie) : String :=
  String.mk (joinSep "; ".data (cs.map (fun c => c.name.data ++ '=' :: c.value.data)))

/-- Parses a `set-cookie` header value into its cookie: the framework
parses the whole string as cookie pairs and keeps the first one; an empty
string yields nothing. -/
def parseSetCookie (s : String) : Option Cookie :=
  (parseCookieHeader s).head?

/-- A header map: an association list of lower-case names and values. -/
abbrev HeaderList := List (String × String)

/-- Looks a name up in a header map, returning the first value. -/
def hget (k : String) : HeaderList → Option String
  | [] => none
  | p :: rest => if p.1 = k then some p.2 else hget k rest

/-- Collects every value stored under a name, used for `set-cookie` which
is the one header the framework keeps multi-valued. -/
def hgetAll (k : String) : HeaderList → List String
  | [] => []
  | p :: rest => if p.1 = k then p.2 :: hgetAll k rest else hgetAll k rest

/-- Sets a header: replaces the value in place when the name is present,
otherwise appends the pair, the behaviour of `Headers.set`. -/
def hset (k v : String) : HeaderList → HeaderList
  | [] => [(k, v)]
  | p :: rest => if p.1 = k then (k, v) :: rest else p :: hset k v rest

/-- Inserts a cookie into a cookie list keyed by name: replaces in place
when the name is present, otherwise appends, the behaviour of the
`Map.set` backing both cookie views. -/
def setAssoc : List Cookie → Cookie → List Cookie
  | [], c => [c]
  | x :: xs, c => if x.name = c.name then c :: xs else x :: setAssoc xs c

/-- Looks a cookie up by name in a cookie list. -/
def cookieLookup (n : String) : List Cookie → Option String
  | [] => none
  | c :: cs => if c.name = n then some c.value else cookieLookup n cs

/-- The `RequestCookies` view of `@edge-runtime/cookies`: the header map it
was built over together with the parsed cookie list it keeps in sync with
the `cookie` header. -/
structure RequestCookies where
  headers : HeaderList
  parsed : List Cookie
  deriving DecidableEq, Repr

/-- Builds the `RequestCookies` view of a header map: parse the `cookie`
header and de-duplicate by name, later pairs winning. -/
def RequestCookies.ofHeaders (h : HeaderList) : RequestCookies :=
  ⟨h, (parseCookieHeader ((hget "cookie" h).getD "")).foldl setAssoc []⟩

/-- `RequestCookies.set`: update the parsed cookie list and rewrite the
`cookie` header to the serialisation of the updated list. -/
def RequestCookies.set (rc : RequestCookies) (c : Cookie) : RequestCookies :=
  let parsed2 := setAssoc rc.parsed c
  ⟨hset "cookie" (serializeCookies parsed2) rc.headers, parsed2⟩

/-- `ResponseCookies.getAll` over a response header map: parse every
`set-cookie` header and collect the cookies into a name-keyed map, later
entries winning. -/
def ResponseCookies.getAll (h : HeaderList) : List Cookie :=
  (hgetAll "set-cookie" h).foldl
    (fun acc s =>
      match parseSetCookie s with
      | some c => setAssoc acc c
      | none => acc) []

/-- The incoming request: the header map it carries. -/
structure NextRequest where
  headers : HeaderList
  deriving DecidableEq, Repr

/-- The outgoing response: the header map it carries. -/
structure NextResponse where
  headers : HeaderList
  deriving DecidableEq, Repr

/-- `NextResponse.next()`: a fresh pass-through response, marked by the
framework with the `x-middleware-next` header. -/
def NextResponse.next : NextResponse :=
  ⟨hset "x-middleware-next" "1" []⟩

/-- Joins strings with commas, as the framework joins the rewritten header
names into the override-headers marker value. -/
def joinComma (xs : List String) : String :=
  String.mk (joinSep ",".data (xs.map String.data))

/-- The header map of `NextResponse.next({ request: { headers } })`: the
pass-through marker, one `x-middleware-request-` entry per request header,
and the `x-middleware-override-headers` marker listing the header names. -/
def nextRequestHeaders (reqHeaders : HeaderList) : HeaderList :=
  let base := hset "x-middleware-next" "1" []
  let withReq := reqHeaders.foldl (fun acc p => hset ("x-middleware-request-" ++ p.1) p.2 acc) base
  hset "x-middleware-override-headers" (joinComma (reqHeaders.map (fun p => p.1))) withReq

/-- The derived copy of the request's cookie view after every cookie of the
response has been merged into it, lines 33–37 of src/index.ts: build the
views, then `outgoingCookies.getAll().forEach(c => incomingCookies.set(c))`. -/
def mergedRequestCookies (req : NextRequest) (res : NextResponse) : RequestCookies :=
  (ResponseCookies.getAll res.headers).foldl RequestCookies.set
    (RequestCookies.ofHeaders req.headers)

/-- `applyCookiesOnNextResponse` of src/index.ts.  It merges the response
cookies into a copy of the request headers, derives the framework's
"continue" response over that copy, and copies onto the outgoing response
exactly the override-headers marker and the `x-middleware-request-`
prefixed headers.  The request is returned alongside the response: the
source never writes to it, and the pair records that. -/
def applyCookiesOnNextResponse (req : NextRequest) (res : NextResponse) :
    NextRequest × NextResponse :=
  let incomingCookies := mergedRequestCookies req res
  let nrh := nextRequestHeaders incomingCookies.headers
  let newHeaders := nrh.foldl
    (fun acc p =>
      if p.1 = "x-middleware-override-headers" ∨ startsWithStr p.1 "x-middleware-request-"
      then hset p.1 p.2 acc else acc)
    res.headers
  (req, ⟨newHeaders⟩)

/-- The token pair the refresh callback resolves with. -/
structure TokenPair where
  accessToken : String
  refreshToken : String
  deriving DecidableEq, Repr

deriving instance DecidableEq for Except

/-- The framework event argument; opaque to this package. -/
abbrev NextFetchEvent := Unit

/-- The next-stage handler.  Its declared type returns a response, but the
composer guards its result with `?? res`, so the embedding lets it return
`none` for a nullish value. -/
abbrev NextMiddleware := NextRequest → NextResponse → NextFetchEvent → Option NextResponse

/-- The four-callback configuration of `getMiddleware`.  A rejected promise
or a thrown exception is the `Except.error` branch of a callback. -/
structure GetMiddlewareOptions where
  shouldRefresh : NextRequest → Bool
  fetchTokenPair : NextRequest → Except String TokenPair
  onSuccess : NextResponse → TokenPair → Except String NextResponse
  onError : Option (NextRequest → NextResponse → String → Except String (Option NextResponse))

/-- Observable events of one composed-handler invocation, in order. -/
inductive Ev where
  | evShouldRefresh (result : Bool)
  | evFetch (result : Except String TokenPair)
  | evOnSuccess (res : NextResponse) (tp : TokenPair)
  | evOnError
  | evPropagate
  | evNext
  deriving DecidableEq, Repr

/-- Recognises the `onSuccess` invocation events of a trace. -/
def Ev.isSuccessEv : Ev → Bool
  | .evOnSuccess _ _ => true
  | _ => false

/-- Provenance-tagged return value of the composed handler: the response
object returned by `onError`, the one returned by the next-stage handler,
or the pass-through response object itself. -/
inductive MwReturned where
  | fromOnError (r : NextResponse)
  | fromHandler (r : NextResponse)
  | passThrough (r : NextResponse)
  deriving DecidableEq, Repr

/-- Outcome of one composed-handler invocation: the returned value (or the
uncaught exception), the event trace, and the request as it stands after
the run. -/
structure MwRun where
  result : Except String MwReturned
  trace : List Ev
  reqOut : NextRequest
  deriving DecidableEq, Repr

/-- Lines 74–76 of src/index.ts: run the cookie propagator, then forward to
the optional next-stage handler, falling back to the pass-through response
when the handler is absent or returns a nullish value. -/
def finishRun (middlewareFn : Option NextMiddleware) (req : NextRequest)
    (event : NextFetchEvent) (res : NextResponse) (trace : List Ev) : MwRun :=
  let pr := applyCookiesOnNextResponse req res
  let trace2 := trace ++ [Ev.evPropagate]
  match middlewareFn with
  | some f =>
    match f pr.1 pr.2 event with
    | some r => ⟨Except.ok (MwReturned.fromHandler r), trace2 ++ [Ev.evNext], pr.1⟩
    | none => ⟨Except.ok (MwReturned.passThrough pr.2), trace2 ++ [Ev.evNext], pr.1⟩
  | none => ⟨Except.ok (MwReturned.passThrough pr.2), trace2, pr.1⟩

/-- Lines 68–71 of src/index.ts, the catch block: delegate to the optional
`onError`; a response returned by it is returned at once, anything else
falls through to propagation and forwarding; an exception thrown by
`onError` itself is not caught. -/
def handleCatch (cfg : GetMiddlewareOptions) (middlewareFn : Option NextMiddleware)
    (req : NextRequest) (event : NextFetchEvent) (res : NextResponse) (e : String)
    (trace : List Ev) : MwRun :=
  match cfg.onError with
  | some h =>
    let t := trace ++ [Ev.evOnError]
    match h req res e with
    | Except.error e2 => ⟨Except.error e2, t, req⟩
    | Except.ok (some r) => ⟨Except.ok (MwReturned.fromOnError r), t, req⟩
    | Except.ok none => finishRun middlewareFn req event res t
  | none => finishRun middlewareFn req event res trace

/-- The handler produced by `getMiddleware(options)(middlewareFn)`, lines
61–77 of src/index.ts: create the pass-through response, decide, guard the
refresh (`await fetchTokenPair` and `onSuccess` are both inside the try
block), catch into `onError`, then propagate cookies and forward. -/
def runMiddleware (cfg : GetMiddlewareOptions) (middlewareFn : Option NextMiddleware)
    (req : NextRequest) (event : NextFetchEvent) : MwRun :=
  let res := NextResponse.next
  if cfg.shouldRefresh req then
    match cfg.fetchTokenPair req with
    | Except.ok tp =>
      let t2 := [Ev.evShouldRefresh true, Ev.evFetch (Except.ok tp), Ev.evOnSuccess res tp]
      match cfg.onSuccess res tp with
      | Except.ok res2 => finishRun middlewareFn req event res2 t2
      | Except.error e => handleCatch cfg middlewareFn req event res e t2
    | Except.error e =>
      handleCatch cfg middlewareFn req event res e
        [Ev.evShouldRefresh true, Ev.evFetch (Except.error e)]
  else
    finishRun middlewareFn req event res [Ev.evShouldRefresh false]

/-- An incoming request with no headers, used for concrete instances. -/
def reqE : NextRequest := ⟨[]⟩

/-- A response carrying no `set-cookie` header, used for concrete instances. -/
def resNoCookies : NextResponse := ⟨[]⟩

/-- A response on which the cookies `a=1` and `b=2` have been set, the
instance of the specification's propagator example. -/
def resW : NextResponse := ⟨[("set-cookie", "a=1"), ("set-cookie", "b=2")]⟩

/-- A configuration whose decision predicate always declines to refresh. -/
def cfgFalse : GetMiddlewareOptions :=
  ⟨fun _ => false, fun _ => Except.error "never", fun r _ => Except.ok r, none⟩

/-- A configuration that always refreshes, resolves with a fixed pair, and
whose `onSuccess` throws; no `onError` is supplied. -/
def cfgThrowSuccess : GetMiddlewareOptions :=
  ⟨fun _ => true, fun _ => Except.ok ⟨"AT", "RT"⟩, fun _ _ => Except.error "boom", none⟩

/-- A configuration that always refreshes and succeeds without mutation. -/
def cfgOk : GetMiddlewareOptions :=
  ⟨fun _ => true, fun _ => Except.ok ⟨"AT2", "RT2"⟩, fun r _ => Except.ok r, none⟩

/-- The response object a redirecting `onError` returns. -/
def resLogin : NextResponse := ⟨[("location", "/login")]⟩

/-- A configuration whose refresh fetch rejects and whose `onError` returns
the redirect response. -/
def cfgFailRedirect : GetMiddlewareOptions :=
  ⟨fun _ => true, fun _ => Except.error "network", fun r _ => Except.ok r,
    some (fun _ _ _ => Except.ok (some resLogin))⟩

/-- A configuration whose refresh fetch rejects; no `onError` is supplied. -/
def cfgFailPlain : GetMiddlewareOptions :=
  ⟨fun _ => true, fun _ => Except.error "network", fun r _ => Except.ok r, none⟩

/-- A next-stage handler that returns the response it is given. -/
def handlerId : NextMiddleware := fun _ r _ => some r

/-- A next-stage handler that returns a nullish value on every request. -/
def handlerNullish : NextMiddleware := fun _ _ _ => none

theorem hget_hset_self (k v : String) (h : HeaderList) : hget k (hset k v h) = some v := by
  induction h with
  | nil => simp [hset, hget]
  | cons p rest ih =>
    by_cases hp : p.1 = k
    · simp [hset, hget, hp]
    · simp [hset, hget, hp, ih]

theorem hget_hset_ne (k k' v : String) (h : HeaderList) (hne : k' ≠ k) :
    hget k (hset k' v h) = hget k h := by
  induction h with
  | nil => simp [hset, hget, hne]
  | cons p rest ih =>
    by_cases hp : p.1 = k'
    · simp [hset, hget, hp, hne]
    · simp only [hset, hp, if_neg, ite_false]
      by_cases hk : p.1 = k
      · simp [hget, hk]
      · simp [hget, hk, ih]

theorem cookieLookup_setAssoc_self (cs : List Cookie) (c : Cookie) :
    cookieLookup c.name (setAssoc cs c) = some c.value := by
  induction cs with
  | nil => simp [setAssoc, cookieLookup]
  | cons x xs ih =>
    by_cases hx : x.name = c.name
    · simp [setAssoc, hx, cookieLookup]
    · simp [setAssoc, hx, cookieLookup, ih]

theorem cookieLookup_setAssoc_ne (cs : List Cookie) (c : Cookie) (n : String)
    (hne : n ≠ c.name) : cookieLookup n (setAssoc cs c) = cookieLookup n cs := by
  induction cs with
  | nil =>
    have h1 : ¬ c.name = n := fun h => hne h.symm
    simp [setAssoc, cookieLookup, h1]
  | cons x xs ih =>
    by_cases hx : x.name = c.name
    · simp only [setAssoc, hx, if_pos, ite_true, cookieLookup]
      have h1 : ¬ c.name = n := fun h => hne h.symm
      have h2 : ¬ x.name = n := by rw [hx]; exact h1
      simp [h1, h2]
    · simp only [setAssoc, hx, ite_false, cookieLookup, ih]

theorem mem_names_setAssoc (cs : List Cookie) (c : Cookie) (n : String) :
    n ∈ (setAssoc cs c).map Cookie.name ↔ n = c.name ∨ n ∈ cs.map Cookie.name := by
  induction cs with
  | nil => simp [setAssoc]
  | cons x xs ih =>
    by_cases hx : x.name = c.name
    · simp only [setAssoc, hx, ite_true, List.map_cons, List.mem_cons]
      tauto
    · simp only [setAssoc, hx, ite_false, List.map_cons, List.mem_cons, ih]
      tauto

theorem nodup_names_setAssoc (cs : List Cookie) (c : Cookie)
    (h : (cs.map Cookie.name).Nodup) : ((setAssoc cs c).map Cookie.name).Nodup := by
  induction cs with
  | nil => simp [setAssoc]
  | cons x xs ih =>
    simp only [List.map_cons, List.nodup_cons] at h
    by_cases hx : x.name = c.name
    · simp only [setAssoc, hx, ite_true, List.map_cons, List.nodup_cons]
      exact ⟨hx ▸ h.1, h.2⟩
    · simp only [setAssoc, hx, ite_false, List.map_cons, List.nodup_cons]
      refine ⟨?_, ih h.2⟩
      rw [mem_names_setAssoc]
      push_neg
      exact ⟨hx, h.1⟩

theorem nodup_names_foldl_setCookies (l : List String) (acc : List Cookie)
    (h : (acc.map Cookie.name).Nodup) :
    (((l.foldl (fun acc s =>
        match parseSetCookie s with
        | some c => setAssoc acc c
        | none => acc) acc)).map Cookie.name).Nodup := by
  induction l generalizing acc with
  | nil => exact h
  | cons s ss ih =>
    rw [List.foldl_cons]
    rcases hp : parseSetCookie s with _ | c
    · simp only [hp]
      exact ih _ h
    · simp only [hp]
      exact ih _ (nodup_names_setAssoc _ _ h)

theorem nodup_names_getAll (h : HeaderList) :
    ((ResponseCookies.getAll h).map Cookie.name).Nodup := by
  unfold ResponseCookies.getAll
  exact nodup_names_foldl_setCookies _ _ (by simp)

theorem cookieLookup_foldl_setAssoc_notMem (l : List Cookie) (acc : List Cookie) (n : String)
    (hn : n ∉ l.map Cookie.name) :
    cookieLookup n (l.foldl setAssoc acc) = cookieLookup n acc := by
  induction l generalizing acc with
  | nil => rfl
  | cons x xs ih =>
    simp only [List.map_cons, List.mem_cons] at hn
    push_neg at hn
    rw [List.foldl_cons, ih _ hn.2, cookieLookup_setAssoc_ne _ _ _ hn.1]

theorem cookieLookup_foldl_setAssoc_mem (l : List Cookie) (acc : List Cookie) (c : Cookie)
    (hnd : (l.map Cookie.name).Nodup) (hc : c ∈ l) :
    cookieLookup c.name (l.foldl setAssoc acc) = some c.value := by
  induction l generalizing acc with
  | nil => cases hc
  | cons x xs ih =>
    simp only [List.map_cons, List.nodup_cons] at hnd
    rcases List.mem_cons.mp hc with rfl | hc
    · rw [List.foldl_cons, cookieLookup_foldl_setAssoc_notMem _ _ _ hnd.1,
        cookieLookup_setAssoc_self]
    · rw [List.foldl_cons]
      exact ih _ hnd.2 hc

theorem parsed_foldl_set (l : List Cookie) (rc : RequestCookies) :
    (l.foldl RequestCookies.set rc).parsed = l.foldl setAssoc rc.parsed := by
  induction l generalizing rc with
  | nil => rfl
  | cons c cs ih =>
    rw [List.foldl_cons, List.foldl_cons, ih]
    rfl

theorem cookie_header_foldl_set (l : List Cookie) (rc : RequestCookies) (hne : l ≠ []) :
    hget "cookie" (l.foldl RequestCookies.set rc).headers
      = some (serializeCookies (l.foldl RequestCookies.set rc).parsed) := by
  rcases List.eq_nil_or_concat l with rfl | ⟨L, c, rfl⟩
  · exact absurd rfl hne
  · simp only [List.concat_eq_append, List.foldl_append, List.foldl_cons, List.foldl_nil]
    simp [RequestCookies.set, hget_hset_self]

theorem merged_headers_of_no_cookies (req : NextRequest) (res : NextResponse)
    (h : ResponseCookies.getAll res.headers = []) :
    (mergedRequestCookies req res).headers = req.headers := by
  unfold mergedRequestCookies
  rw [h]
  rfl

theorem merged_contains_response_cookies (req : NextRequest) (res : NextResponse) :
    ∀ c ∈ ResponseCookies.getAll res.headers,
      cookieLookup c.name (mergedRequestCookies req res).parsed = some c.value := by
  intro c hc
  unfold mergedRequestCookies
  rw [parsed_foldl_set]
  exact cookieLookup_foldl_setAssoc_mem _ _ _ (nodup_names_getAll _) hc

theorem merged_cookie_header (req : NextRequest) (res : NextResponse)
    (hne : ResponseCookies.getAll res.headers ≠ []) :
    hget "cookie" (mergedRequestCookies req res).headers
      = some (serializeCookies (mergedRequestCookies req res).parsed) := by
  unfold mergedRequestCookies
  exact cookie_header_foldl_set _ _ hne

theorem hget_copyFold (l : HeaderList) (acc : HeaderList) (k : String)
    (h1 : k ≠ "x-middleware-override-headers")
    (h2 : startsWithStr k "x-middleware-request-" = false) :
    hget k (l.foldl (fun acc p =>
        if p.1 = "x-middleware-override-headers" ∨ startsWithStr p.1 "x-middleware-request-"
        then hset p.1 p.2 acc else acc) acc) = hget k acc := by
  induction l generalizing acc with
  | nil => rfl
  | cons p ps ih =>
    rw [List.foldl_cons, ih]
    by_cases hc : p.1 = "x-middleware-override-headers" ∨ startsWithStr p.1 "x-middleware-request-"
    · rw [if_pos hc]
      apply hget_hset_ne
      rcases hc with hc | hc
      · rw [hc]
        exact fun he => h1 he.symm
      · intro he
        rw [he, h2] at hc
        cases hc
    · rw [if_neg hc]

theorem applyCookies_frame (req : NextRequest) (res : NextResponse) (k : String)
    (h1 : k ≠ "x-middleware-override-headers")
    (h2 : startsWithStr k "x-middleware-request-" = false) :
    hget k (applyCookiesOnNextResponse req res).2.headers = hget k res.headers := by
  unfold applyCookiesOnNextResponse
  exact hget_copyFold _ _ _ h1 h2

theorem reqOut_finishRun (mw : Option NextMiddleware) (req : NextRequest)
    (ev : NextFetchEvent) (res : NextResponse) (t : List Ev) :
    (finishRun mw req ev res t).reqOut = req := by
  rcases mw with _ | f
  · rfl
  · simp only [finishRun]
    cases hf : f (applyCookiesOnNextResponse req res).1 (applyCookiesOnNextResponse req res).2 ev
    · simp only [hf]
      rfl
    · simp only [hf]
      rfl

theorem result_isOk_finishRun (mw : Option NextMiddleware) (req : NextRequest)
    (ev : NextFetchEvent) (res : NextResponse) (t : List Ev) :
    (finishRun mw req ev res t).result.isOk = true := by
  rcases mw with _ | f
  · rfl
  · simp only [finishRun]
    cases hf : f (applyCookiesOnNextResponse req res).1 (applyCookiesOnNextResponse req res).2 ev
    · simp only [hf]
      rfl
    · simp only [hf]
      rfl

theorem evPropagate_mem_finishRun (mw : Option NextMiddleware) (req : NextRequest)
    (ev : NextFetchEvent) (res : NextResponse) (t : List Ev) :
    Ev.evPropagate ∈ (finishRun mw req ev res t).trace := by
  rcases mw with _ | f
  · simp [finishRun]
  · simp only [finishRun]
    cases hf : f (applyCookiesOnNextResponse req res).1 (applyCookiesOnNextResponse req res).2 ev
    · simp [hf]
    · simp [hf]

theorem evNext_mem_finishRun (f : NextMiddleware) (req : NextRequest)
    (ev : NextFetchEvent) (res : NextResponse) (t : List Ev) :
    Ev.evNext ∈ (finishRun (some f) req ev res t).trace := by
  simp only [finishRun]
  cases hf : f (applyCookiesOnNextResponse req res).1 (applyCookiesOnNextResponse req res).2 ev
  · simp [hf]
  · simp [hf]

theorem filterSuccess_finishRun (mw : Option NextMiddleware) (req : NextRequest)
    (ev : NextFetchEvent) (res : NextResponse) (t : List Ev) :
    (finishRun mw req ev res t).trace.filter Ev.isSuccessEv = t.filter Ev.isSuccessEv := by
  rcases mw with _ | f
  · simp [finishRun, Ev.isSuccessEv]
  · simp only [finishRun]
    cases hf : f (applyCookiesOnNextResponse req res).1 (applyCookiesOnNextResponse req res).2 ev
    · simp [hf, Ev.isSuccessEv]
    · simp [hf, Ev.isSuccessEv]

theorem handleCatch_none (cfg : GetMiddlewareOptions) (mw : Option NextMiddleware)
    (req : NextRequest) (ev : NextFetchEvent) (res : NextResponse) (e : String) (t : List Ev)
    (h : cfg.onError = none) :
    handleCatch cfg mw req ev res e t = finishRun mw req ev res t := by
  simp only [handleCatch, h]

theorem handleCatch_some_ret (cfg : GetMiddlewareOptions) (mw : Option NextMiddleware)
    (req : NextRequest) (ev : NextFetchEvent) (res : NextResponse) (e : String) (t : List Ev)
    (h0 : NextRequest → NextResponse → String → Except String (Option NextResponse))
    (r : NextResponse) (h : cfg.onError = some h0) (hr : h0 req res e = Except.ok (some r)) :
    handleCatch cfg mw req ev res e t
      = ⟨Except.ok (MwReturned.fromOnError r), t ++ [Ev.evOnError], req⟩ := by
  simp only [handleCatch, h, hr]

theorem handleCatch_some_noRet (cfg : GetMiddlewareOptions) (mw : Option NextMiddleware)
    (req : NextRequest) (ev : NextFetchEvent) (res : NextResponse) (e : String) (t : List Ev)
    (h0 : NextRequest → NextResponse → String → Except String (Option NextResponse))
    (h : cfg.onError = some h0) (hr : h0 req res e = Except.ok none) :
    handleCatch cfg mw req ev res e t = finishRun mw req ev res (t ++ [Ev.evOnError]) := by
  simp only [handleCatch, h, hr]

theorem handleCatch_some_throw (cfg : GetMiddlewareOptions) (mw : Option NextMiddleware)
    (req : NextRequest) (ev : NextFetchEvent) (res : NextResponse) (e : String) (t : List Ev)
    (h0 : NextRequest → NextResponse → String → Except String (Option NextResponse))
    (e2 : String) (h : cfg.onError = some h0) (hr : h0 req res e = Except.error e2) :
    handleCatch cfg mw req ev res e t = ⟨Except.error e2, t ++ [Ev.evOnError], req⟩ := by
  simp only [handleCatch, h, hr]

theorem reqOut_handleCatch (cfg : GetMiddlewareOptions) (mw : Option NextMiddleware)
    (req : NextRequest) (ev : NextFetchEvent) (res : NextResponse) (e : String) (t : List Ev) :
    (handleCatch cfg mw req ev res e t).reqOut = req := by
  rcases hoe : cfg.onError with _ | h0
  · rw [handleCatch_none cfg mw req ev res e t hoe]
    exact reqOut_finishRun _ _ _ _ _
  · rcases hr : h0 req res e with e2 | or
    · rw [handleCatch_some_throw cfg mw req ev res e t h0 e2 hoe hr]
    · rcases or with _ | r
      · rw [handleCatch_some_noRet cfg mw req ev res e t h0 hoe hr]
        exact reqOut_finishRun _ _ _ _ _
      · rw [handleCatch_some_ret cfg mw req ev res e t h0 r hoe hr]

theorem filterSuccess_handleCatch (cfg : GetMiddlewareOptions) (mw : Option NextMiddleware)
    (req : NextRequest) (ev : NextFetchEvent) (res : NextResponse) (e : String) (t : List Ev) :
    (handleCatch cfg mw req ev res e t).trace.filter Ev.isSuccessEv
      = t.filter Ev.isSuccessEv := by
  rcases hoe : cfg.onError with _ | h0
  · rw [handleCatch_none cfg mw req ev res e t hoe, filterSuccess_finishRun]
  · rcases hr : h0 req res e with e2 | or
    · rw [handleCatch_some_throw cfg mw req ev res e t h0 e2 hoe hr]
      simp [Ev.isSuccessEv]
    · rcases or with _ | r
      · rw [handleCatch_some_noRet cfg mw req ev res e t h0 hoe hr, filterSuccess_finishRun]
        simp [Ev.isSuccessEv]
      · rw [handleCatch_some_ret cfg mw req ev res e t h0 r hoe hr]
        simp [Ev.isSuccessEv]

theorem run_noRefresh_eq (cfg : GetMiddlewareOptions) (mw : Option NextMiddleware)
    (req : NextRequest) (ev : NextFetchEvent) (h : cfg.shouldRefresh req = false) :
    runMiddleware cfg mw req ev
      = finishRun mw req ev NextResponse.next [Ev.evShouldRefresh false] := by
  simp [runMiddleware, h]

theorem run_refresh_ok_eq (cfg : GetMiddlewareOptions) (mw : Option NextMiddleware)
    (req : NextRequest) (ev : NextFetchEvent) (tp : TokenPair) (res2 : NextResponse)
    (h1 : cfg.shouldRefresh req = true) (h2 : cfg.fetchTokenPair req = Except.ok tp)
    (h3 : cfg.onSuccess NextResponse.next tp = Except.ok res2) :
    runMiddleware cfg mw req ev
      = finishRun mw req ev res2
          [Ev.evShouldRefresh true, Ev.evFetch (Except.ok tp),
            Ev.evOnSuccess NextResponse.next tp] := by
  simp [runMiddleware, h1, h2, h3]

theorem run_refresh_onSuccessThrow_eq (cfg : GetMiddlewareOptions) (mw : Option NextMiddleware)
    (req : NextRequest) (ev : NextFetchEvent) (tp : TokenPair) (e : String)
    (h1 : cfg.shouldRefresh req = true) (h2 : cfg.fetchTokenPair req = Except.ok tp)
    (h3 : cfg.onSuccess NextResponse.next tp = Except.error e) :
    runMiddleware cfg mw req ev
      = handleCatch cfg mw req ev NextResponse.next e
          [Ev.evShouldRefresh true, Ev.evFetch (Except.ok tp),
            Ev.evOnSuccess NextResponse.next tp] := by
  simp [runMiddleware, h1, h2, h3]

theorem run_refresh_fetchThrow_eq (cfg : GetMiddlewareOptions) (mw : Option NextMiddleware)
    (req : NextRequest) (ev : NextFetchEvent) (e : String)
    (h1 : cfg.shouldRefresh req = true) (h2 : cfg.fetchTokenPair req = Except.error e) :
    runMiddleware cfg mw req ev
      = handleCatch cfg mw req ev NextResponse.next e
          [Ev.evShouldRefresh true, Ev.evFetch (Except.error e)] := by
  simp [runMiddleware, h1, h2]

theorem mem_trace_finishRun (mw : Option NextMiddleware) (req : NextRequest)
    (ev : NextFetchEvent) (res : NextResponse) (t : List Ev) (x : Ev) (hx : x ∈ t) :
    x ∈ (finishRun mw req ev res t).trace := by
  rcases mw with _ | f
  · simp [finishRun, hx]
  · simp only [finishRun]
    cases hf : f (applyCookiesOnNextResponse req res).1 (applyCookiesOnNextResponse req res).2 ev
    · simp [hf, hx]
    · simp [hf, hx]

theorem finishRun_nullish (f : NextMiddleware) (req : NextRequest) (ev : NextFetchEvent)
    (res : NextResponse) (t : List Ev) (hnull : ∀ a b c, f a b c = none) :
    (finishRun (some f) req ev res t).result
      = Except.ok (MwReturned.passThrough (applyCookiesOnNextResponse req res).2) := by
  simp only [finishRun, hnull]

theorem handleCatch_nullish (cfg : GetMiddlewareOptions) (f : NextMiddleware)
    (req : NextRequest) (ev : NextFetchEvent) (res : NextResponse) (e : String) (t : List Ev)
    (hnull : ∀ a b c, f a b c = none) (ht : Ev.evNext ∉ t)
    (hinv : Ev.evNext ∈ (handleCatch cfg (some f) req ev res e t).trace) :
    ∃ r, (handleCatch cfg (some f) req ev res e t).result
        = Except.ok (MwReturned.passThrough r) := by
  rcases hoe : cfg.onError with _ | h0
  · rw [handleCatch_none _ _ _ _ _ _ _ hoe]
    exact ⟨_, finishRun_nullish f req ev res t hnull⟩
  · rcases hr : h0 req res e with e2 | or
    · rw [handleCatch_some_throw _ _ _ _ _ _ _ _ _ hoe hr] at hinv
      simp at hinv
      exact absurd hinv ht
    · rcases or with _ | r
      · rw [handleCatch_some_noRet _ _ _ _ _ _ _ _ hoe hr]
        exact ⟨_, finishRun_nullish f req ev res _ hnull⟩
      · rw [handleCatch_some_ret _ _ _ _ _ _ _ _ _ hoe hr] at hinv
        simp at hinv
        exact absurd hinv ht

/-- C1 counterexample: with `shouldRefresh` true, a resolving
`fetchTokenPair` and an `onSuccess` that throws `"boom"` while no `onError`
is supplied, the composed handler still returns normally — the exception is
caught by the composer's try/catch, contradicting the claim that it
propagates to the caller. -/
theorem onSuccess_throw_not_propagated_cex :
    cfgThrowSuccess.onSuccess NextResponse.next ⟨"AT", "RT"⟩ = Except.error "boom" ∧
    (runMiddleware cfgThrowSuccess none reqE ()).result.isOk = true := by
  exact ⟨rfl, rfl⟩

/-- C1 (amended): an exception thrown by `onSuccess` is caught by the
composer's try/catch — the same guard as `fetchTokenPair` — and delegated to
the optional `onError`, not propagated to the caller: with no `onError` the
run still returns normally and reaches cookie propagation; with an
`onError`, the hook is invoked and its verdict short-circuits or falls
through exactly as for a refresh-fetch failure. -/
theorem onSuccess_throw_caught (cfg : GetMiddlewareOptions) (mw : Option NextMiddleware)
    (req : NextRequest) (ev : NextFetchEvent) (tp : TokenPair) (e : String)
    (h1 : cfg.shouldRefresh req = true) (h2 : cfg.fetchTokenPair req = Except.ok tp)
    (h3 : cfg.onSuccess NextResponse.next tp = Except.error e) :
    (cfg.onError = none →
      (runMiddleware cfg mw req ev).result.isOk = true ∧
      Ev.evPropagate ∈ (runMiddleware cfg mw req ev).trace) ∧
    (∀ h0, cfg.onError = some h0 →
      Ev.evOnError ∈ (runMiddleware cfg mw req ev).trace ∧
      (∀ r, h0 req NextResponse.next e = Except.ok (some r) →
        (runMiddleware cfg mw req ev).result = Except.ok (MwReturned.fromOnError r)) ∧
      (h0 req NextResponse.next e = Except.ok none →
        (runMiddleware cfg mw req ev).result.isOk = true ∧
        Ev.evPropagate ∈ (runMiddleware cfg mw req ev).trace)) := by
  rw [run_refresh_onSuccessThrow_eq cfg mw req ev tp e h1 h2 h3]
  constructor
  · intro hoe
    rw [handleCatch_none _ _ _ _ _ _ _ hoe]
    exact ⟨result_isOk_finishRun _ _ _ _ _, evPropagate_mem_finishRun _ _ _ _ _⟩
  · intro h0 hoe
    refine ⟨?_, fun r hr => ?_, fun hr => ?_⟩
    · rcases hr : h0 req NextResponse.next e with e2 | or
      · rw [handleCatch_some_throw _ _ _ _ _ _ _ _ _ hoe hr]
        simp
      · rcases or with _ | r
        · rw [handleCatch_some_noRet _ _ _ _ _ _ _ _ hoe hr]
          exact mem_trace_finishRun _ _ _ _ _ _ (by simp)
        · rw [handleCatch_some_ret _ _ _ _ _ _ _ _ _ hoe hr]
          simp
    · rw [handleCatch_some_ret _ _ _ _ _ _ _ _ _ hoe hr]
    · rw [handleCatch_some_noRet _ _ _ _ _ _ _ _ hoe hr]
      exact ⟨result_isOk_finishRun _ _ _ _ _, evPropagate_mem_finishRun _ _ _ _ _⟩

theorem onSuccess_throw_caught_witness :
    (runMiddleware cfgThrowSuccess none reqE ()).result.isOk = true ∧
    Ev.evPropagate ∈ (runMiddleware cfgThrowSuccess none reqE ()).trace :=
  (onSuccess_throw_caught cfgThrowSuccess none reqE () ⟨"AT", "RT"⟩ "boom" rfl rfl rfl).1 rfl

/-- C2 counterexample: for a configuration that never refreshes, the run on
a concrete request still performs the propagation step, contradicting the
claim that the cookie propagator is not run on such requests. -/
theorem propagator_skipped_cex :
    cfgFalse.shouldRefresh reqE = false ∧
    Ev.evPropagate ∈ (runMiddleware cfgFalse none reqE ()).trace :=
  ⟨rfl, by decide⟩

/-- C2 (amended): when `shouldRefresh` returns false the composer moves
from the decision straight to propagation and then forwarding — the cookie
propagator runs on every request, including those that are not refreshed. -/
theorem noRefresh_propagate_then_forward (cfg : GetMiddlewareOptions)
    (mw : Option NextMiddleware) (req : NextRequest) (ev : NextFetchEvent)
    (h : cfg.shouldRefresh req = false) :
    (runMiddleware cfg mw req ev).trace = [Ev.evShouldRefresh false, Ev.evPropagate] ∨
    (runMiddleware cfg mw req ev).trace
      = [Ev.evShouldRefresh false, Ev.evPropagate, Ev.evNext] := by
  rw [run_noRefresh_eq cfg mw req ev h]
  rcases mw with _ | f
  · left
    simp [finishRun]
  · right
    simp only [finishRun]
    cases hf : f (applyCookiesOnNextResponse req NextResponse.next).1
        (applyCookiesOnNextResponse req NextResponse.next).2 ev
    · simp [hf]
    · simp [hf]

theorem noRefresh_propagate_then_forward_witness :
    (runMiddleware cfgFalse none reqE ()).trace = [Ev.evShouldRefresh false, Ev.evPropagate] ∨
    (runMiddleware cfgFalse none reqE ()).trace
      = [Ev.evShouldRefresh false, Ev.evPropagate, Ev.evNext] :=
  noRefresh_propagate_then_forward cfgFalse none reqE () rfl

/-- C3: when `shouldRefresh` returns false, `fetchTokenPair` and `onSuccess`
are never invoked, and the composed handler returns exactly the next-stage
handler's response when one is supplied and returned, and otherwise the
pass-through response object itself. -/
theorem noRefresh_skips_refresh_callbacks (cfg : GetMiddlewareOptions)
    (mw : Option NextMiddleware) (req : NextRequest) (ev : NextFetchEvent)
    (h : cfg.shouldRefresh req = false) :
    (∀ r, Ev.evFetch r ∉ (runMiddleware cfg mw req ev).trace) ∧
    (∀ a b, Ev.evOnSuccess a b ∉ (runMiddleware cfg mw req ev).trace) ∧
    (runMiddleware cfg none req ev).result
      = Except.ok (MwReturned.passThrough (applyCookiesOnNextResponse req NextResponse.next).2) ∧
    (∀ f r, mw = some f →
      f (applyCookiesOnNextResponse req NextResponse.next).1
        (applyCookiesOnNextResponse req NextResponse.next).2 ev = some r →
      (runMiddleware cfg mw req ev).result = Except.ok (MwReturned.fromHandler r)) := by
  refine ⟨?_, ?_, ?_, ?_⟩
  · intro r
    rw [run_noRefresh_eq cfg mw req ev h]
    rcases mw with _ | f
    · simp [finishRun]
    · simp only [finishRun]
      cases hf : f (applyCookiesOnNextResponse req NextResponse.next).1
          (applyCookiesOnNextResponse req NextResponse.next).2 ev
      · simp [hf]
      · simp [hf]
  · intro a b
    rw [run_noRefresh_eq cfg mw req ev h]
    rcases mw with _ | f
    · simp [finishRun]
    · simp only [finishRun]
      cases hf : f (applyCookiesOnNextResponse req NextResponse.next).1
          (applyCookiesOnNextResponse req NextResponse.next).2 ev
      · simp [hf]
      · simp [hf]
  · rw [run_noRefresh_eq cfg none req ev h]
    rfl
  · intro f r hmw hf
    subst hmw
    rw [run_noRefresh_eq cfg (some f) req ev h]
    simp only [finishRun, hf]

theorem noRefresh_skips_refresh_callbacks_witness :
    (∀ r, Ev.evFetch r ∉ (runMiddleware cfgFalse none reqE ()).trace) ∧
    (runMiddleware cfgFalse none reqE ()).result
      = Except.ok (MwReturned.passThrough (applyCookiesOnNextResponse reqE NextResponse.next).2) := by
  have h := noRefresh_skips_refresh_callbacks cfgFalse none reqE () rfl
  exact ⟨h.1, h.2.2.1⟩

/-- C4: when `shouldRefresh` returns true and `fetchTokenPair` resolves
with a pair, `onSuccess` is invoked exactly once, and its arguments are the
pass-through response created at the start of the invocation and the
resolved token pair. -/
theorem refresh_resolved_onSuccess_once (cfg : GetMiddlewareOptions)
    (mw : Option NextMiddleware) (req : NextRequest) (ev : NextFetchEvent) (tp : TokenPair)
    (h1 : cfg.shouldRefresh req = true) (h2 : cfg.fetchTokenPair req = Except.ok tp) :
    (runMiddleware cfg mw req ev).trace.filter Ev.isSuccessEv
      = [Ev.evOnSuccess NextResponse.next tp] := by
  rcases h3 : cfg.onSuccess NextResponse.next tp with e | res2
  · rw [run_refresh_onSuccessThrow_eq cfg mw req ev tp e h1 h2 h3, filterSuccess_handleCatch]
    simp [Ev.isSuccessEv]
  · rw [run_refresh_ok_eq cfg mw req ev tp res2 h1 h2 h3, filterSuccess_finishRun]
    simp [Ev.isSuccessEv]

theorem refresh_resolved_onSuccess_once_witness :
    (runMiddleware cfgOk none reqE ()).trace.filter Ev.isSuccessEv
      = [Ev.evOnSuccess NextResponse.next ⟨"AT2", "RT2"⟩] :=
  refresh_resolved_onSuccess_once cfgOk none reqE () ⟨"AT2", "RT2"⟩ rfl rfl

/-- C5: when the guarded refresh path fails and a supplied `onError` returns
a response object, that exact object is the composed handler's return value,
and neither the cookie propagator nor the next-stage handler runs
afterwards. -/
theorem onError_response_short_circuits (cfg : GetMiddlewareOptions)
    (mw : Option NextMiddleware) (req : NextRequest) (ev : NextFetchEvent) (e : String)
    (h0 : NextRequest → NextResponse → String → Except String (Option NextResponse))
    (r : NextResponse)
    (h1 : cfg.shouldRefresh req = true)
    (hfail : cfg.fetchTokenPair req = Except.error e ∨
      ∃ tp, cfg.fetchTokenPair req = Except.ok tp ∧
        cfg.onSuccess NextResponse.next tp = Except.error e)
    (hoe : cfg.onError = some h0)
    (hr : h0 req NextResponse.next e = Except.ok (some r)) :
    (runMiddleware cfg mw req ev).result = Except.ok (MwReturned.fromOnError r) ∧
    Ev.evPropagate ∉ (runMiddleware cfg mw req ev).trace ∧
    Ev.evNext ∉ (runMiddleware cfg mw req ev).trace := by
  rcases hfail with hfe | ⟨tp, hok, hos⟩
  · rw [run_refresh_fetchThrow_eq cfg mw req ev e h1 hfe,
      handleCatch_some_ret _ _ _ _ _ _ _ _ _ hoe hr]
    refine ⟨rfl, ?_, ?_⟩ <;> simp
  · rw [run_refresh_onSuccessThrow_eq cfg mw req ev tp e h1 hok hos,
      handleCatch_some_ret _ _ _ _ _ _ _ _ _ hoe hr]
    refine ⟨rfl, ?_, ?_⟩ <;> simp

theorem onError_response_short_circuits_witness :
    (runMiddleware cfgFailRedirect none reqE ()).result
      = Except.ok (MwReturned.fromOnError resLogin) ∧
    Ev.evPropagate ∉ (runMiddleware cfgFailRedirect none reqE ()).trace ∧
    Ev.evNext ∉ (runMiddleware cfgFailRedirect none reqE ()).trace :=
  onError_response_short_circuits cfgFailRedirect none reqE () "network"
    (fun _ _ _ => Except.ok (some resLogin)) resLogin rfl (Or.inl rfl) rfl rfl

/-- C6: when `shouldRefresh` returns true, `fetchTokenPair` rejects and no
`onError` is supplied, the composer catches the failure — the run returns
normally, no exception escapes — and still reaches cookie propagation and,
when a next-stage handler is supplied, forwarding to it. -/
theorem fetch_fail_no_onError_falls_through (cfg : GetMiddlewareOptions)
    (mw : Option NextMiddleware) (req : NextRequest) (ev : NextFetchEvent) (e : String)
    (h1 : cfg.shouldRefresh req = true)
    (h2 : cfg.fetchTokenPair req = Except.error e)
    (h3 : cfg.onError = none) :
    (runMiddleware cfg mw req ev).result.isOk = true ∧
    Ev.evPropagate ∈ (runMiddleware cfg mw req ev).trace ∧
    (∀ f, mw = some f → Ev.evNext ∈ (runMiddleware cfg mw req ev).trace) := by
  rw [run_refresh_fetchThrow_eq cfg mw req ev e h1 h2, handleCatch_none _ _ _ _ _ _ _ h3]
  refine ⟨result_isOk_finishRun _ _ _ _ _, evPropagate_mem_finishRun _ _ _ _ _, ?_⟩
  intro f hmw
  subst hmw
  exact evNext_mem_finishRun _ _ _ _ _

theorem fetch_fail_no_onError_falls_through_witness :
    (runMiddleware cfgFailPlain (some handlerId) reqE ()).result.isOk = true ∧
    Ev.evPropagate ∈ (runMiddleware cfgFailPlain (some handlerId) reqE ()).trace ∧
    Ev.evNext ∈ (runMiddleware cfgFailPlain (some handlerId) reqE ()).trace := by
  have h := fetch_fail_no_onError_falls_through cfgFailPlain (some handlerId) reqE ()
    "network" rfl rfl rfl
  exact ⟨h.1, h.2.1, h.2.2 handlerId rfl⟩

/-- C7: the cookie propagator copies every cookie set on the outgoing
response into the derived copy of the request's header set — each such
cookie is present in the merged request-cookie view, and the derived
`cookie` header is exactly the serialisation of that view — and the only
headers it sets on the outgoing response are the override-headers marker
and headers prefixed `x-middleware-request-`: every other response header
is left exactly as it was. -/
theorem applyCookies_copies_cookies_and_only_marker_headers
    (req : NextRequest) (res : NextResponse) :
    (∀ c ∈ ResponseCookies.getAll res.headers,
        cookieLookup c.name (mergedRequestCookies req res).parsed = some c.value) ∧
    (ResponseCookies.getAll res.headers ≠ [] →
        hget "cookie" (mergedRequestCookies req res).headers
          = some (serializeCookies (mergedRequestCookies req res).parsed)) ∧
    (∀ k, k ≠ "x-middleware-override-headers" →
        startsWithStr k "x-middleware-request-" = false →
        hget k (applyCookiesOnNextResponse req res).2.headers = hget k res.headers) :=
  ⟨merged_contains_response_cookies req res,
    fun hne => merged_cookie_header req res hne,
    fun k h1 h2 => applyCookies_frame req res k h1 h2⟩

theorem applyCookies_copies_cookies_witness :
    cookieLookup "a" (mergedRequestCookies reqE resW).parsed = some "1" ∧
    cookieLookup "b" (mergedRequestCookies reqE resW).parsed = some "2" ∧
    hget "cookie" (mergedRequestCookies reqE resW).headers
      = some (serializeCookies (mergedRequestCookies reqE resW).parsed) ∧
    hget "content-type" (applyCookiesOnNextResponse reqE resW).2.headers
      = hget "content-type" resW.headers := by
  refine ⟨?_, ?_, ?_, ?_⟩
  · exact (applyCookies_copies_cookies_and_only_marker_headers reqE resW).1
      ⟨"a", "1"⟩ (by decide)
  · exact (applyCookies_copies_cookies_and_only_marker_headers reqE resW).1
      ⟨"b", "2"⟩ (by decide)
  · exact (applyCookies_copies_cookies_and_only_marker_headers reqE resW).2.1 (by decide)
  · exact (applyCookies_copies_cookies_and_only_marker_headers reqE resW).2.2
      "content-type" (by decide) (by decide)

/-- C8 counterexample: on a concrete request and a response with no cookies
set, the propagator still changes the outgoing response's header set — it
gains the override-headers marker — contradicting the claim that the header
set is left unchanged. -/
theorem propagator_noop_cex :
    ResponseCookies.getAll resNoCookies.headers = [] ∧
    (applyCookiesOnNextResponse reqE resNoCookies).2.headers ≠ resNoCookies.headers := by
  exact ⟨rfl, by decide⟩

/-- C8 (amended): when no cookies were set on the response, the cookie
merge into the derived copy of the request's header set is a no-op — that
derived header set equals the request's headers — while the outgoing
response still changes only at the override-headers marker and the
`x-middleware-request-` prefixed names. -/
theorem propagator_noop_on_request_copy (req : NextRequest) (res : NextResponse)
    (h : ResponseCookies.getAll res.headers = []) :
    (mergedRequestCookies req res).headers = req.headers ∧
    (∀ k, k ≠ "x-middleware-override-headers" →
        startsWithStr k "x-middleware-request-" = false →
        hget k (applyCookiesOnNextResponse req res).2.headers = hget k res.headers) :=
  ⟨merged_headers_of_no_cookies req res h,
    fun k h1 h2 => applyCookies_frame req res k h1 h2⟩

theorem propagator_noop_on_request_copy_witness :
    (mergedRequestCookies reqE resNoCookies).headers = reqE.headers ∧
    hget "location" (applyCookiesOnNextResponse reqE resNoCookies).2.headers
      = hget "location" resNoCookies.headers := by
  have h := propagator_noop_on_request_copy reqE resNoCookies rfl
  exact ⟨h.1, h.2 "location" (by decide) (by decide)⟩

/-- C9: neither the cookie propagator nor the composed handler ever mutates
the incoming request: the propagator works on a derived copy of the
request's headers, and the request that comes out of a full run is the one
that went in. -/
theorem request_never_mutated (req : NextRequest) (res : NextResponse)
    (cfg : GetMiddlewareOptions) (mw : Option NextMiddleware) (ev : NextFetchEvent) :
    (applyCookiesOnNextResponse req res).1 = req ∧
    (runMiddleware cfg mw req ev).reqOut = req := by
  refine ⟨rfl, ?_⟩
  cases hs : cfg.shouldRefresh req with
  | false =>
    rw [run_noRefresh_eq cfg mw req ev hs]
    exact reqOut_finishRun _ _ _ _ _
  | true =>
    rcases hfe : cfg.fetchTokenPair req with e | tp
    · rw [run_refresh_fetchThrow_eq cfg mw req ev e hs hfe]
      exact reqOut_handleCatch _ _ _ _ _ _ _
    · rcases hos : cfg.onSuccess NextResponse.next tp with e | res2
      · rw [run_refresh_onSuccessThrow_eq cfg mw req ev tp e hs hfe hos]
        exact reqOut_handleCatch _ _ _ _ _ _ _
      · rw [run_refresh_ok_eq cfg mw req ev tp res2 hs hfe hos]
        exact reqOut_finishRun _ _ _ _ _

/-- C10: when a next-stage handler is supplied, is invoked, and returns a
nullish value, the composed handler falls back to returning the
pass-through response object rather than the nullish value. -/
theorem nullish_handler_returns_passThrough (cfg : GetMiddlewareOptions)
    (req : NextRequest) (ev : NextFetchEvent) (f : NextMiddleware)
    (hnull : ∀ a b c, f a b c = none)
    (hinv : Ev.evNext ∈ (runMiddleware cfg (some f) req ev).trace) :
    ∃ r, (runMiddleware cfg (some f) req ev).result
        = Except.ok (MwReturned.passThrough r) := by
  cases hs : cfg.shouldRefresh req with
  | false =>
    rw [run_noRefresh_eq cfg (some f) req ev hs]
    exact ⟨_, finishRun_nullish f req ev NextResponse.next _ hnull⟩
  | true =>
    rcases hfe : cfg.fetchTokenPair req with e | tp
    · rw [run_refresh_fetchThrow_eq cfg (some f) req ev e hs hfe] at hinv ⊢
      exact handleCatch_nullish cfg f req ev NextResponse.next e _ hnull (by simp) hinv
    · rcases hos : cfg.onSuccess NextResponse.next tp with e | res2
      · rw [run_refresh_onSuccessThrow_eq cfg (some f) req ev tp e hs hfe hos] at hinv ⊢
        exact handleCatch_nullish cfg f req ev NextResponse.next e _ hnull (by simp) hinv
      · rw [run_refresh_ok_eq cfg (some f) req ev tp res2 hs hfe hos]
        exact ⟨_, finishRun_nullish f req ev res2 _ hnull⟩

theorem nullish_handler_returns_passThrough_witness :
    ∃ r, (runMiddleware cfgFalse (some handlerNullish) reqE ()).result
        = Except.ok (MwReturned.passThrough r) :=
  nullish_handler_returns_passThrough cfgFalse reqE () handlerNullish
    (fun _ _ _ => rfl) (by decide)
